import Mathlib

/-!
Verification of the PR-review report pipeline.

Shallow embedding of the core logic of the repository:
* `lib/github_manager.py` — repository-list parsing, HTTP retry client,
  review reducer (`get_reviewer_status`).
* `lib/slack_notifier.py` — reviewer-list formatting, PR blocks,
  ready/pending partition, full message assembly.
* `main.py` — orchestration: per-repository fetch with failure isolation,
  notify-skip on empty result.

Python strings are modelled as Lean `String` (both compare
lexicographically by code point); Python dicts holding reviewer status are
modelled as lookup functions `String → Option _` (github_manager) or as
association lists (slack_notifier, where the key set is enumerated);
Python exceptions are modelled with `Except`.
-/

/-! ### Review events and the review reducer (`GithubManager.get_reviewer_status`) -/

/-- One element of the JSON array returned by the reviews endpoint;
only the fields read by the source are modelled:
`review['user']['login']`, `review['state']`, `review['submitted_at']`. -/
structure ReviewEvent where
  reviewerLogin : String
  state : String
  submittedAt : String
deriving DecidableEq, Repr

/-- The value stored in the `reviewer_status` dict:
`{'state': state, 'submitted_at': review['submitted_at']}`. -/
structure ReviewEntry where
  state : String
  submittedAt : String
deriving DecidableEq, Repr

def toEntry (e : ReviewEvent) : ReviewEntry := ⟨e.state, e.submittedAt⟩

/-- One iteration of the update of the `reviewer_status` dict in
`get_reviewer_status` (github_manager.py lines 129-134):
`if reviewer not in reviewer_status or review['submitted_at'] >
reviewer_status[reviewer]['submitted_at']: reviewer_status[reviewer] = {...}`.
The dict is modelled by its lookup function. -/
def rsUpdate (m : String → Option ReviewEntry) (e : ReviewEvent) :
    String → Option ReviewEntry :=
  match m e.reviewerLogin with
  | none => fun k => if k = e.reviewerLogin then some (toEntry e) else m k
  | some old =>
      if old.submittedAt < e.submittedAt then
        fun k => if k = e.reviewerLogin then some (toEntry e) else m k
      else m

/-- `GithubManager.get_reviewer_status` (github_manager.py lines 114-136),
with the already-fetched review list as input: a single pass that counts
`state == 'APPROVED'` events and keeps the per-reviewer latest entry. -/
def get_reviewer_status (reviews : List ReviewEvent) :
    (String → Option ReviewEntry) × Nat :=
  reviews.foldl
    (fun acc review =>
      (rsUpdate acc.1 review,
       if review.state = "APPROVED" then acc.2 + 1 else acc.2))
    (fun _ => none, 0)

/-- The per-reviewer part of one loop iteration, restricted to a single
reviewer's entry (the value of the dict at that login). -/
def stepEntry (acc : Option ReviewEntry) (e : ReviewEvent) : Option ReviewEntry :=
  match acc with
  | none => some (toEntry e)
  | some old =>
      if old.submittedAt < e.submittedAt then some (toEntry e) else some old

/-- `e` has the (weakly) greatest `submittedAt` among `l`. -/
def isMaxIn (l : List ReviewEvent) (e : ReviewEvent) : Bool :=
  l.all fun e2 => !(decide (e.submittedAt < e2.submittedAt))

/-! #### Lemmas about the reducer -/

theorem get_reviewer_status_snd (reviews : List ReviewEvent)
    (m : String → Option ReviewEntry) (c : Nat) :
    (reviews.foldl
      (fun acc review =>
        (rsUpdate acc.1 review,
         if review.state = "APPROVED" then acc.2 + 1 else acc.2))
      (m, c)).2
    = c + reviews.countP (fun e => e.state == "APPROVED") := by
  induction reviews generalizing m c with
  | nil => simp
  | cons e es ih =>
      simp only [List.foldl_cons, List.countP_cons]
      rw [ih]
      by_cases h : e.state = "APPROVED"
      · simp [h]
        omega
      · simp [h]

theorem get_reviewer_status_fst (reviews : List ReviewEvent)
    (m : String → Option ReviewEntry) (c : Nat) (login : String) :
    ((reviews.foldl
      (fun acc review =>
        (rsUpdate acc.1 review,
         if review.state = "APPROVED" then acc.2 + 1 else acc.2))
      (m, c)).1) login
    = (reviews.filter (fun e => e.reviewerLogin == login)).foldl stepEntry (m login) := by
  induction reviews generalizing m c with
  | nil => simp
  | cons e es ih =>
      simp only [List.foldl_cons, List.filter_cons]
      by_cases h : e.reviewerLogin = login
      · subst h
        simp only [beq_self_eq_true, if_pos, List.foldl_cons]
        rw [ih]
        congr 1
        unfold rsUpdate stepEntry
        cases hm : m e.reviewerLogin with
        | none => simp
        | some old =>
            by_cases hlt : old.submittedAt < e.submittedAt
            · simp [hlt]
            · simp [hlt, hm]
      · have hb : (e.reviewerLogin == login) = false := by
          simp [h]
        simp only [hb, Bool.false_eq_true, if_neg, not_false_iff]
        rw [ih]
        congr 1
        have h' : login ≠ e.reviewerLogin := fun hc => h hc.symm
        unfold rsUpdate
        cases hm : m e.reviewerLogin with
        | none => simp [h']
        | some old =>
            by_cases hlt : old.submittedAt < e.submittedAt
            · simp [hlt, h']
            · simp [hlt]

theorem isMaxIn_iff (l : List ReviewEvent) (e : ReviewEvent) :
    isMaxIn l e = true ↔ ∀ x ∈ l, ¬ e.submittedAt < x.submittedAt := by
  simp [isMaxIn, List.all_eq_true]

theorem isMaxIn_cons (y : ReviewEvent) (l : List ReviewEvent) (e : ReviewEvent) :
    isMaxIn (y :: l) e
      = (!(decide (e.submittedAt < y.submittedAt)) && isMaxIn l e) := by
  simp [isMaxIn]

theorem find?_congr_mem {α : Type} (l : List α) (p q : α → Bool)
    (h : ∀ x ∈ l, p x = q x) : l.find? p = l.find? q := by
  induction l with
  | nil => rfl
  | cons x xs ih =>
      have hx : p x = q x := h x (by simp)
      simp only [List.find?_cons]
      rw [hx, ih fun y hy => h y (by simp [hy])]

theorem exists_isMaxIn :
    ∀ (l : List ReviewEvent), l ≠ [] → ∃ x ∈ l, isMaxIn l x = true := by
  intro l
  induction l with
  | nil => intro h; exact absurd rfl h
  | cons y ys ih =>
      intro _
      cases hys : ys with
      | nil =>
          refine ⟨y, by simp, ?_⟩
          rw [isMaxIn_iff]
          intro x hx
          simp at hx
          subst hx
          exact lt_irrefl _
      | cons z zs =>
          obtain ⟨m, hm, hmax⟩ := ih (by simp [hys])
          rw [hys] at hm hmax
          rw [isMaxIn_iff] at hmax
          by_cases hlt : m.submittedAt < y.submittedAt
          · refine ⟨y, by simp, ?_⟩
            rw [isMaxIn_iff]
            intro x hx
            rcases List.mem_cons.mp hx with hx | hx
            · subst hx; exact lt_irrefl _
            · have hxm : x.submittedAt ≤ m.submittedAt := not_lt.mp (hmax x hx)
              exact not_lt.mpr (le_of_lt (lt_of_le_of_lt hxm hlt))
          · refine ⟨m, by simp [hm], ?_⟩
            rw [isMaxIn_iff]
            intro x hx
            rcases List.mem_cons.mp hx with hx | hx
            · subst hx; exact hlt
            · exact hmax x hx

theorem fold_stepEntry_some :
    ∀ (evs : List ReviewEvent) (a : ReviewEntry),
      evs.foldl stepEntry (some a)
        = match evs.find?
            (fun e => decide (a.submittedAt < e.submittedAt) && isMaxIn evs e) with
          | some e => some (toEntry e)
          | none => some a := by
  intro evs
  induction evs with
  | nil => intro a; rfl
  | cons e es ih =>
      intro a
      have hstep : List.foldl stepEntry (some a) (e :: es)
          = List.foldl stepEntry (stepEntry (some a) e) es := rfl
      by_cases hlt : a.submittedAt < e.submittedAt
      · -- the new event strictly exceeds the stored entry and replaces it
        have h1 : stepEntry (some a) e = some (toEntry e) := by
          simp [stepEntry, hlt]
        rw [hstep, h1, ih (toEntry e)]
        by_cases hall : ∀ x ∈ es, ¬ e.submittedAt < x.submittedAt
        · -- nothing in the tail exceeds the new entry: it is the final one
          have hpe : es.find?
              (fun x => decide ((toEntry e).submittedAt < x.submittedAt) && isMaxIn es x)
              = none := by
            rw [List.find?_eq_none]
            intro x hx
            simp [toEntry, hall x hx]
          have hmaxe : isMaxIn (e :: es) e = true := by
            rw [isMaxIn_iff]
            intro x hx
            rcases List.mem_cons.mp hx with hx | hx
            · subst hx; exact lt_irrefl _
            · exact hall x hx
          have hpae : (decide (a.submittedAt < e.submittedAt)
              && isMaxIn (e :: es) e) = true := by
            simp [hlt, hmaxe]
          rw [hpe]
          simp only [List.find?_cons]
          rw [hpae]
        · -- some tail event exceeds the new entry
          push_neg at hall
          obtain ⟨e2, he2, hlt2⟩ := hall
          have hmaxe : isMaxIn (e :: es) e = false := by
            rw [← Bool.not_eq_true, isMaxIn_iff]
            push_neg
            exact ⟨e2, List.mem_cons_of_mem _ he2, hlt2⟩
          have hpae : (decide (a.submittedAt < e.submittedAt)
              && isMaxIn (e :: es) e) = false := by
            simp [hmaxe]
          have hcong : es.find?
                (fun x => decide (a.submittedAt < x.submittedAt) && isMaxIn (e :: es) x)
              = es.find?
                (fun x => decide ((toEntry e).submittedAt < x.submittedAt) && isMaxIn es x) := by
            apply find?_congr_mem
            intro x hx
            by_cases hmx : isMaxIn es x = true
            · have hx2 : e2.submittedAt ≤ x.submittedAt :=
                not_lt.mp ((isMaxIn_iff es x).mp hmx e2 he2)
              have hex : e.submittedAt < x.submittedAt := lt_of_lt_of_le hlt2 hx2
              have hax : a.submittedAt < x.submittedAt := lt_trans hlt hex
              have hxe : ¬ x.submittedAt < e.submittedAt := lt_asymm hex
              simp [isMaxIn_cons, hmx, hax, hex, hxe, toEntry]
            · have hmx' : isMaxIn es x = false := by
                rw [← Bool.not_eq_true]; exact hmx
              simp [isMaxIn_cons, hmx']
          have hsome : (es.find?
              (fun x => decide ((toEntry e).submittedAt < x.submittedAt) && isMaxIn es x)).isSome := by
            rw [List.find?_isSome]
            obtain ⟨m, hm, hmax⟩ := exists_isMaxIn es (by intro h; subst h; simp at he2)
            have h2m : e2.submittedAt ≤ m.submittedAt :=
              not_lt.mp ((isMaxIn_iff es m).mp hmax e2 he2)
            have hem : e.submittedAt < m.submittedAt := lt_of_lt_of_le hlt2 h2m
            exact ⟨m, hm, by simp [toEntry, hem, hmax]⟩
          simp only [List.find?_cons]
          rw [hpae, hcong]
          obtain ⟨v, hv⟩ := Option.isSome_iff_exists.mp hsome
          rw [hv]
      · -- the new event does not exceed the stored entry: entry kept
        have h1 : stepEntry (some a) e = some a := by
          simp [stepEntry, hlt]
        rw [hstep, h1, ih a]
        have hpae : (decide (a.submittedAt < e.submittedAt)
            && isMaxIn (e :: es) e) = false := by
          simp [hlt]
        have hcong : es.find?
              (fun x => decide (a.submittedAt < x.submittedAt) && isMaxIn (e :: es) x)
            = es.find?
              (fun x => decide (a.submittedAt < x.submittedAt) && isMaxIn es x) := by
          apply find?_congr_mem
          intro x hx
          by_cases hax : a.submittedAt < x.submittedAt
          · have hex : e.submittedAt < x.submittedAt :=
              lt_of_le_of_lt (not_lt.mp hlt) hax
            have hxe : ¬ x.submittedAt < e.submittedAt := lt_asymm hex
            simp [isMaxIn_cons, hax, hxe]
          · simp [hax]
        simp only [List.find?_cons]
        rw [hpae, hcong]

theorem fold_stepEntry_none (evs : List ReviewEvent) :
    evs.foldl stepEntry none = (evs.find? (isMaxIn evs)).map toEntry := by
  cases evs with
  | nil => rfl
  | cons e es =>
      have hstep : List.foldl stepEntry none (e :: es)
          = List.foldl stepEntry (some (toEntry e)) es := rfl
      rw [hstep, fold_stepEntry_some es (toEntry e)]
      by_cases hall : ∀ x ∈ es, ¬ e.submittedAt < x.submittedAt
      · have hpe : es.find?
            (fun x => decide ((toEntry e).submittedAt < x.submittedAt) && isMaxIn es x)
            = none := by
          rw [List.find?_eq_none]
          intro x hx
          simp [toEntry, hall x hx]
        have hmaxe : isMaxIn (e :: es) e = true := by
          rw [isMaxIn_iff]
          intro x hx
          rcases List.mem_cons.mp hx with hx | hx
          · subst hx; exact lt_irrefl _
          · exact hall x hx
        rw [hpe]
        simp only [List.find?_cons]
        rw [hmaxe]
        rfl
      · push_neg at hall
        obtain ⟨e2, he2, hlt2⟩ := hall
        have hmaxe : isMaxIn (e :: es) e = false := by
          rw [← Bool.not_eq_true, isMaxIn_iff]
          push_neg
          exact ⟨e2, List.mem_cons_of_mem _ he2, hlt2⟩
        have hcong : es.find? (isMaxIn (e :: es))
            = es.find?
              (fun x => decide ((toEntry e).submittedAt < x.submittedAt) && isMaxIn es x) := by
          apply find?_congr_mem
          intro x hx
          by_cases hmx : isMaxIn es x = true
          · have hx2 : e2.submittedAt ≤ x.submittedAt :=
              not_lt.mp ((isMaxIn_iff es x).mp hmx e2 he2)
            have hex : e.submittedAt < x.submittedAt := lt_of_lt_of_le hlt2 hx2
            have hxe : ¬ x.submittedAt < e.submittedAt := lt_asymm hex
            simp [isMaxIn_cons, hmx, hex, hxe, toEntry]
          · have hmx' : isMaxIn es x = false := by
              rw [← Bool.not_eq_true]; exact hmx
            simp [isMaxIn_cons, hmx']
        have hsome : (es.find?
            (fun x => decide ((toEntry e).submittedAt < x.submittedAt) && isMaxIn es x)).isSome := by
          rw [List.find?_isSome]
          obtain ⟨m, hm, hmax⟩ := exists_isMaxIn es (by intro h; subst h; simp at he2)
          have h2m : e2.submittedAt ≤ m.submittedAt :=
            not_lt.mp ((isMaxIn_iff es m).mp hmax e2 he2)
          have hem : e.submittedAt < m.submittedAt := lt_of_lt_of_le hlt2 h2m
          exact ⟨m, hm, by simp [toEntry, hem, hmax]⟩
        simp only [List.find?_cons]
        rw [hmaxe, hcong]
        obtain ⟨v, hv⟩ := Option.isSome_iff_exists.mp hsome
        rw [hv]
        rfl

/-! ### Claim C1 -/

/-- C1: for every sequence of review events, the approval count returned by
`get_reviewer_status` equals the number of events whose state is APPROVED
(every such event counted, so a reviewer approving twice contributes two),
and the count is invariant under permutation of the input sequence. -/
theorem c1_approval_count (reviews reviews' : List ReviewEvent) :
    (get_reviewer_status reviews).2
      = (reviews.filter (fun e => e.state == "APPROVED")).length
    ∧ (reviews.Perm reviews' →
        (get_reviewer_status reviews).2 = (get_reviewer_status reviews').2) := by
  have hc : ∀ l : List ReviewEvent,
      (get_reviewer_status l).2 = l.countP (fun e => e.state == "APPROVED") := by
    intro l
    have h := get_reviewer_status_snd l (fun _ => none) 0
    simpa [get_reviewer_status] using h
  constructor
  · rw [hc, List.countP_eq_length_filter]
  · intro hperm
    rw [hc, hc]
    exact hperm.countP_eq _

/-- Witness for C1 at a concrete input: `alice` approves twice (both count),
and a permuted sequence yields the same count. -/
theorem c1_approval_count_witness :
    (get_reviewer_status
        [⟨"alice", "APPROVED", "2024-01-01"⟩,
         ⟨"bob", "CHANGES_REQUESTED", "2024-01-02"⟩,
         ⟨"alice", "APPROVED", "2024-01-03"⟩]).2
      = (([⟨"alice", "APPROVED", "2024-01-01"⟩,
           ⟨"bob", "CHANGES_REQUESTED", "2024-01-02"⟩,
           ⟨"alice", "APPROVED", "2024-01-03"⟩] :
             List ReviewEvent).filter (fun e => e.state == "APPROVED")).length
    ∧ (get_reviewer_status
        [⟨"alice", "APPROVED", "2024-01-01"⟩,
         ⟨"bob", "CHANGES_REQUESTED", "2024-01-02"⟩,
         ⟨"alice", "APPROVED", "2024-01-03"⟩]).2
      = (get_reviewer_status
        [⟨"alice", "APPROVED", "2024-01-03"⟩,
         ⟨"bob", "CHANGES_REQUESTED", "2024-01-02"⟩,
         ⟨"alice", "APPROVED", "2024-01-01"⟩]).2 :=
  ⟨(c1_approval_count
      [⟨"alice", "APPROVED", "2024-01-01"⟩,
       ⟨"bob", "CHANGES_REQUESTED", "2024-01-02"⟩,
       ⟨"alice", "APPROVED", "2024-01-03"⟩]
      [⟨"alice", "APPROVED", "2024-01-03"⟩,
       ⟨"bob", "CHANGES_REQUESTED", "2024-01-02"⟩,
       ⟨"alice", "APPROVED", "2024-01-01"⟩]).1,
   (c1_approval_count
      [⟨"alice", "APPROVED", "2024-01-01"⟩,
       ⟨"bob", "CHANGES_REQUESTED", "2024-01-02"⟩,
       ⟨"alice", "APPROVED", "2024-01-03"⟩]
      [⟨"alice", "APPROVED", "2024-01-03"⟩,
       ⟨"bob", "CHANGES_REQUESTED", "2024-01-02"⟩,
       ⟨"alice", "APPROVED", "2024-01-01"⟩]).2 (by decide)⟩

/-! ### Claim C2 -/

/-- C2: the entry stored for a reviewer is the first event of that reviewer
(in input order) whose `submittedAt` is lexically greatest among that
reviewer's events — i.e. the entry is replaced only on a strictly greater
`submittedAt`, ties keep the first-seen event — and for two events of the
same reviewer with distinct `submittedAt` the stored entry is the one with
the greater `submittedAt`, independent of input order. -/
theorem c2_latest_review_per_reviewer (reviews : List ReviewEvent) (login : String) :
    ((get_reviewer_status reviews).1 login
      = ((reviews.filter (fun e => e.reviewerLogin == login)).find?
          (isMaxIn (reviews.filter (fun e => e.reviewerLogin == login)))).map toEntry)
    ∧ (∀ e1 e2 : ReviewEvent, e1.reviewerLogin = login → e2.reviewerLogin = login →
        e1.submittedAt ≠ e2.submittedAt →
        (get_reviewer_status [e1, e2]).1 login = (get_reviewer_status [e2, e1]).1 login
        ∧ (get_reviewer_status [e1, e2]).1 login
            = some (toEntry (if e1.submittedAt < e2.submittedAt then e2 else e1))) := by
  constructor
  · exact (get_reviewer_status_fst reviews (fun _ => none) 0 login).trans
      (fold_stepEntry_none _)
  · intro e1 e2 h1 h2 hne
    have key : ∀ x y : ReviewEvent, x.reviewerLogin = login → y.reviewerLogin = login →
        (get_reviewer_status [x, y]).1 login = stepEntry (stepEntry none x) y := by
      intro x y hx hy
      have hfx : (x.reviewerLogin == login) = true := by simp [hx]
      have hfy : (y.reviewerLogin == login) = true := by simp [hy]
      have h := get_reviewer_status_fst [x, y] (fun _ => none) 0 login
      have hfilter : ([x, y] : List ReviewEvent).filter
          (fun e => e.reviewerLogin == login) = [x, y] := by
        simp [List.filter, hfx, hfy]
      rw [hfilter] at h
      exact h
    rw [key e1 e2 h1 h2, key e2 e1 h2 h1]
    rcases lt_trichotomy e1.submittedAt e2.submittedAt with hlt | heq | hgt
    · have h21 : ¬ e2.submittedAt < e1.submittedAt := lt_asymm hlt
      constructor
      · simp [stepEntry, toEntry, hlt, h21]
      · simp [stepEntry, toEntry, hlt]
    · exact absurd heq hne
    · have h12 : ¬ e1.submittedAt < e2.submittedAt := lt_asymm hgt
      constructor
      · simp [stepEntry, toEntry, hgt, h12]
      · simp [stepEntry, toEntry, h12]

/-- Witness for C2 at a concrete input: `alice` has two reviews with
distinct timestamps; the stored entry is the later review, whichever
order the events arrive in. -/
theorem c2_latest_review_per_reviewer_witness :
    ((get_reviewer_status
        [⟨"alice", "APPROVED", "2024-01-01"⟩, ⟨"alice", "COMMENTED", "2024-01-02"⟩]).1 "alice"
      = (get_reviewer_status
        [⟨"alice", "COMMENTED", "2024-01-02"⟩, ⟨"alice", "APPROVED", "2024-01-01"⟩]).1 "alice")
    ∧ ((get_reviewer_status
        [⟨"alice", "APPROVED", "2024-01-01"⟩, ⟨"alice", "COMMENTED", "2024-01-02"⟩]).1 "alice"
      = some (toEntry (if ("2024-01-01" : String) < "2024-01-02"
          then ⟨"alice", "COMMENTED", "2024-01-02"⟩
          else ⟨"alice", "APPROVED", "2024-01-01"⟩))) :=
  (c2_latest_review_per_reviewer
      [⟨"alice", "APPROVED", "2024-01-01"⟩, ⟨"alice", "COMMENTED", "2024-01-02"⟩]
      "alice").2
    ⟨"alice", "APPROVED", "2024-01-01"⟩ ⟨"alice", "COMMENTED", "2024-01-02"⟩
    rfl rfl (by decide)

/-! ### HTTP retry client (`GithubManager._make_request`, github_manager.py lines 75-95)

One call to `requests.request` either raises a transport-level
`RequestException` or yields a response with a status code and body;
`response.raise_for_status()` then raises `HTTPError` exactly when
`400 <= status < 600` (the documented behavior of the requests library).
The loop body is modelled per attempt index; the fuel argument counts the
iterations remaining in `for attempt in range(self.max_retries)`, and the
fuel-exhausted case models the implicit `return None` after the loop. -/

/-- What the transport returns for one attempt. -/
inductive AttemptOutcome (β : Type) where
  | exn (msg : String)
  | resp (status : Nat) (body : β)

/-- The `requests.exceptions.RequestException` hierarchy as caught by the
source: a transport failure or an `HTTPError` raised by
`raise_for_status`. -/
inductive ReqError where
  | transport (msg : String)
  | httpError (status : Nat)
deriving DecidableEq, Repr

/-- `self.max_retries = 3`. -/
def max_retries : Nat := 3

/-- `self.retry_delay = 5  # seconds`. -/
def retry_delay : Nat := 5

/-- The body of the `try` block for one attempt: the request itself may
raise, and `raise_for_status` raises `HTTPError` iff `400 <= status < 600`;
otherwise the response is returned. -/
def tryAttempt {β : Type} (o : AttemptOutcome β) : Except ReqError (Nat × β) :=
  match o with
  | .exn m => .error (.transport m)
  | .resp s b => if 400 ≤ s ∧ s < 600 then .error (.httpError s) else .ok (s, b)

/-- The retry loop from attempt index `attempt` with `fuel` iterations
remaining. Returns the result together with the list of
`time.sleep(self.retry_delay * (attempt + 1))` durations performed and the
number of attempts made; `none` is the implicit `return None` reached if
the loop were to fall off the end. -/
def make_request_go {β : Type} (outcome : Nat → AttemptOutcome β) :
    Nat → Nat → Option (Except ReqError (Nat × β) × List Nat × Nat)
  | _, 0 => none
  | attempt, fuel + 1 =>
    match tryAttempt (outcome attempt) with
    | .ok r => some (.ok r, [], attempt + 1)
    | .error e =>
        if attempt = max_retries - 1 then some (.error e, [], attempt + 1)
        else
          match make_request_go outcome (attempt + 1) fuel with
          | some (res, sleeps, n) =>
              some (res, retry_delay * (attempt + 1) :: sleeps, n)
          | none => none

/-- `GithubManager._make_request`, as a function of the per-attempt
transport outcomes. -/
def make_request {β : Type} (outcome : Nat → AttemptOutcome β) :
    Option (Except ReqError (Nat × β) × List Nat × Nat) :=
  make_request_go outcome 0 max_retries

theorem make_request_eq {β : Type} (outcome : Nat → AttemptOutcome β) :
    make_request outcome =
      match tryAttempt (outcome 0) with
      | .ok r => some (.ok r, [], 1)
      | .error _ =>
        match tryAttempt (outcome 1) with
        | .ok r => some (.ok r, [5], 2)
        | .error _ =>
          match tryAttempt (outcome 2) with
          | .ok r => some (.ok r, [5, 10], 3)
          | .error e => some (.error e, [5, 10], 3) := by
  cases h0 : tryAttempt (outcome 0) with
  | ok r => simp [make_request, make_request_go, max_retries, h0]
  | error e0 =>
      cases h1 : tryAttempt (outcome 1) with
      | ok r =>
          simp [make_request, make_request_go, max_retries, retry_delay, h0, h1]
      | error e1 =>
          cases h2 : tryAttempt (outcome 2) with
          | ok r =>
              simp [make_request, make_request_go, max_retries, retry_delay, h0, h1, h2]
          | error e2 =>
              simp [make_request, make_request_go, max_retries, retry_delay, h0, h1, h2]

/-! ### Claim C6 -/

/-- C6: the retry client makes at most 3 attempts; with `n` attempts made,
the sleeps performed are exactly `retry_delay * k` for `k = 1 .. n-1`
(i.e. 5 then 10 before attempts 2 and 3); and when all three attempts
fail, the last failure is the result. -/
theorem c6_retry_backoff (β : Type) (outcome : Nat → AttemptOutcome β) :
    (∃ res sleeps n, make_request outcome = some (res, sleeps, n) ∧ n ≤ 3 ∧
        sleeps = (List.range (n - 1)).map (fun i => retry_delay * (i + 1)))
    ∧ (∀ e0 e1 e2, tryAttempt (outcome 0) = .error e0 →
        tryAttempt (outcome 1) = .error e1 →
        tryAttempt (outcome 2) = .error e2 →
        make_request outcome = some (.error e2, [5, 10], 3)) := by
  constructor
  · cases h0 : tryAttempt (outcome 0) with
    | ok r =>
        exact ⟨.ok r, [], 1, by simp [make_request_eq, h0], by omega, by rfl⟩
    | error e0 =>
        cases h1 : tryAttempt (outcome 1) with
        | ok r =>
            refine ⟨.ok r, [5], 2, by simp [make_request_eq, h0, h1], by omega, ?_⟩
            simp [retry_delay, List.range_succ]
        | error e1 =>
            cases h2 : tryAttempt (outcome 2) with
            | ok r =>
                refine ⟨.ok r, [5, 10], 3, by simp [make_request_eq, h0, h1, h2],
                  by omega, ?_⟩
                simp [retry_delay, List.range_succ]
            | error e2 =>
                refine ⟨.error e2, [5, 10], 3, by simp [make_request_eq, h0, h1, h2],
                  by omega, ?_⟩
                simp [retry_delay, List.range_succ]
  · intro e0 e1 e2 h0 h1 h2
    simp [make_request_eq, h0, h1, h2]

/-- Witness for C6 at a concrete input: every attempt raises a transport
error; three attempts are made, with sleeps 5 and 10, and the last failure
is returned. -/
theorem c6_retry_backoff_witness :
    make_request (fun _ => AttemptOutcome.exn (β := Unit) "connection refused")
      = some (.error (.transport "connection refused"), [5, 10], 3) :=
  (c6_retry_backoff Unit (fun _ => AttemptOutcome.exn "connection refused")).2
    (.transport "connection refused") (.transport "connection refused")
    (.transport "connection refused") rfl rfl rfl

/-! ### Claim C10 -/

/-- C10 is false as stated: `raise_for_status` raises only for statuses in
400-599, so a final response with status 304 (a non-2xx status) is
returned by `_make_request` without raising — the function does not
guarantee a 2xx status on the returned response. -/
theorem c10_counterexample :
    make_request (fun _ => AttemptOutcome.resp 304 ())
      = some (.ok (304, ()), [], 1)
    ∧ ¬ (200 ≤ 304 ∧ 304 < 300) := by
  constructor
  · rfl
  · decide

/-- C10 amended: `_make_request` either returns a response whose status
passed `raise_for_status` (i.e. is outside the 400-599 error range) or
raises the failure of the last attempt made; the implicit fall-off-the-end
branch returning `None` is unreachable, because on the final attempt any
failure is re-raised instead of retried. -/
theorem c10_no_fallthrough (β : Type) (outcome : Nat → AttemptOutcome β) :
    ∃ res sleeps n, make_request outcome = some (res, sleeps, n)
      ∧ (∀ s b, res = Except.ok (s, b) → ¬ (400 ≤ s ∧ s < 600))
      ∧ (∀ e, res = Except.error e → tryAttempt (outcome (n - 1)) = Except.error e) := by
  have hok : ∀ (o : AttemptOutcome β) (s : Nat) (b : β),
      tryAttempt o = .ok (s, b) → ¬ (400 ≤ s ∧ s < 600) := by
    intro o s b h
    cases o with
    | exn m => simp [tryAttempt] at h
    | resp st bd =>
        by_cases hs : 400 ≤ st ∧ st < 600
        · simp [tryAttempt, hs] at h
        · simp [tryAttempt, hs] at h
          rcases h with ⟨hst, _⟩
          rw [← hst]
          exact hs
  cases h0 : tryAttempt (outcome 0) with
  | ok r =>
      refine ⟨.ok r, [], 1, by simp [make_request_eq, h0], ?_, ?_⟩
      · intro s b hr
        cases hr
        exact hok _ _ _ h0
      · intro e he
        exact absurd he (by simp)
  | error e0 =>
      cases h1 : tryAttempt (outcome 1) with
      | ok r =>
          refine ⟨.ok r, [5], 2, by simp [make_request_eq, h0, h1], ?_, ?_⟩
          · intro s b hr
            cases hr
            exact hok _ _ _ h1
          · intro e he
            exact absurd he (by simp)
      | error e1 =>
          cases h2 : tryAttempt (outcome 2) with
          | ok r =>
              refine ⟨.ok r, [5, 10], 3, by simp [make_request_eq, h0, h1, h2], ?_, ?_⟩
              · intro s b hr
                cases hr
                exact hok _ _ _ h2
              · intro e he
                exact absurd he (by simp)
          | error e2 =>
              refine ⟨.error e2, [5, 10], 3,
                by simp [make_request_eq, h0, h1, h2], ?_, ?_⟩
              · intro s b hr
                exact absurd hr (by simp)
              · intro e he
                cases he
                exact h2

/-- Witness for C10 (amended) at a concrete input: with every attempt
failing, the result is still `some _` (the fall-off-the-end branch is not
taken) and the propagated error is the last attempt's. -/
theorem c10_no_fallthrough_witness :
    (make_request (fun _ => AttemptOutcome.exn (β := Unit) "boom")).isSome = true := by
  obtain ⟨res, sleeps, n, h, -, -⟩ :=
    c10_no_fallthrough Unit (fun _ => AttemptOutcome.exn "boom")
  rw [h]
  rfl

/-! ### Repository-list parsing (`GithubManager._parse_repos`, github_manager.py lines 26-73)

Python string primitives are modelled on the character list:
`str.split(sep)` splits at every occurrence of a single-character
separator keeping empty segments, `str.strip()` drops leading and
trailing whitespace, `in` is character membership. `json.loads` is
modelled by its outcome: `none` stands for a raised `JSONDecodeError`,
`some j` for the decoded document. -/

/-- Decoded JSON documents. An `obj` models a Python dict produced by
`json.loads` (keys unique). -/
inductive Json where
  | null
  | bool (b : Bool)
  | num (n : Int)
  | str (s : String)
  | arr (items : List Json)
  | obj (fields : List (String × Json))

/-- Splitter on the character list: `cur` is the segment read so far,
reversed. Every separator occurrence splits; empty segments are kept,
matching Python `str.split(sep)`. -/
def splitCharAux (sep : Char) : List Char → List Char → List (List Char)
  | [], cur => [cur.reverse]
  | c :: cs, cur =>
      if c = sep then cur.reverse :: splitCharAux sep cs []
      else splitCharAux sep cs (c :: cur)

/-- Python `s.split(sep)` for a one-character separator. -/
def pySplit (s : String) (sep : Char) : List String :=
  (splitCharAux sep s.data []).map fun l => ⟨l⟩

/-- Python `s.strip()`. -/
def pyStrip (s : String) : String :=
  ⟨((s.data.dropWhile Char.isWhitespace).reverse.dropWhile Char.isWhitespace).reverse⟩

/-- Python `c in s` for a character. -/
def pyContains (s : String) (c : Char) : Bool :=
  s.data.contains c

/-- Python dict key lookup, for dicts with unique keys. -/
def jlookup (fields : List (String × Json)) (k : String) : Option Json :=
  match fields with
  | [] => none
  | (k', v) :: rest => if k' = k then some v else jlookup rest k

/-- The JSON branch of `_parse_repos` (lines 41-52): iterate the decoded
list; entries that are not dicts, or that lack one of the keys `owner`,
`repo`, `icon`, are skipped (`continue`); otherwise the triple
`(r['owner'], r['repo'], r['icon'])` is appended. -/
def parse_json_list (items : List Json) : List (Json × Json × Json) :=
  items.foldl
    (fun acc r =>
      match r with
      | .obj fields =>
          match jlookup fields "owner", jlookup fields "repo", jlookup fields "icon" with
          | some o, some rp, some ic => acc ++ [(o, rp, ic)]
          | _, _, _ => acc
      | _ => acc)
    []

/-- The delimiter branch of `_parse_repos` (lines 59-70): split on `,`;
for each segment containing `/`, strip it and split on `/`; the unpacking
`owner, repo, icon = ...` raises `ValueError` unless there are exactly
three parts, and the `except ValueError: continue` skips that segment.
Delimiter-produced values are strings, injected into `Json.str`. -/
def parse_delimiter (s : String) : List (Json × Json × Json) :=
  (pySplit s ',').foldl
    (fun acc seg =>
      if pyContains seg '/' then
        match pySplit (pyStrip seg) '/' with
        | [o, r, i] => acc ++ [(Json.str o, Json.str r, Json.str i)]
        | _ => acc
      else acc)
    []

/-- `GithubManager._parse_repos` as a function of the `json.loads`
outcome on the stripped input (`decoded = none` models a raised
`JSONDecodeError`). A decoded list goes to the JSON branch; any other
decoded value hits the `else` at lines 53-55 and returns `[]`; only a
decode error reaches the delimiter branch. -/
def parse_repos_from (decoded : Option Json) (repos_str : String) :
    List (Json × Json × Json) :=
  match decoded with
  | some (.arr items) => parse_json_list items
  | some _ => []
  | none => parse_delimiter (pyStrip repos_str)

/-- The per-segment extractor the spec describes for the delimiter path:
a segment is well-formed iff it strip-splits on `/` into exactly three
parts. -/
def seg_triple (seg : String) : Option (Json × Json × Json) :=
  match pySplit (pyStrip seg) '/' with
  | [o, r, i] => some (Json.str o, Json.str r, Json.str i)
  | _ => none

/-- The per-entry extractor for the JSON path: an entry contributes iff
it is an object with all of the keys `owner`, `repo`, `icon`. -/
def entry_triple (r : Json) : Option (Json × Json × Json) :=
  match r with
  | .obj fields =>
      match jlookup fields "owner", jlookup fields "repo", jlookup fields "icon" with
      | some o, some rp, some ic => some (o, rp, ic)
      | _, _, _ => none
  | _ => none

theorem splitCharAux_no_sep (sep : Char) :
    ∀ (l cur : List Char), sep ∉ l →
      splitCharAux sep l cur = [cur.reverse ++ l] := by
  intro l
  induction l with
  | nil => intro cur _; simp [splitCharAux]
  | cons c cs ih =>
      intro cur h
      have hc : ¬ c = sep := fun hc => h (by simp [hc])
      have hcs : sep ∉ cs := fun hm => h (by simp [hm])
      simp only [splitCharAux, if_neg hc]
      rw [ih _ hcs]
      simp

theorem seg_triple_eq_none (seg : String) (h : pyContains seg '/' = false) :
    seg_triple seg = none := by
  have hmem : ('/' : Char) ∉ (pyStrip seg).data := by
    intro hm
    have h1 : ('/' : Char) ∈ (seg.data.dropWhile Char.isWhitespace).reverse.dropWhile
        Char.isWhitespace := by
      simpa [pyStrip] using hm
    have h2 : ('/' : Char) ∈ seg.data :=
      (List.dropWhile_sublist _).mem
        (by
          have := (List.dropWhile_sublist
            (l := (seg.data.dropWhile Char.isWhitespace).reverse)
            (p := Char.isWhitespace)).mem h1
          simpa using this)
    simp only [pyContains] at h
    simp at h
    exact h h2
  unfold seg_triple pySplit
  rw [splitCharAux_no_sep _ _ _ hmem]
  simp

theorem foldl_toList_filterMap {α β : Type} (f : α → Option β) :
    ∀ (l : List α) (acc : List β),
      l.foldl (fun a x => a ++ (f x).toList) acc = acc ++ l.filterMap f := by
  intro l
  induction l with
  | nil => intro acc; simp
  | cons x xs ih =>
      intro acc
      simp only [List.foldl_cons]
      rw [ih]
      cases hf : f x <;> simp [hf, List.filterMap_cons]

theorem parse_delimiter_eq_filterMap (s : String) :
    parse_delimiter s = (pySplit s ',').filterMap seg_triple := by
  unfold parse_delimiter
  have hbody : (fun (acc : List (Json × Json × Json)) seg =>
      if pyContains seg '/' then
        match pySplit (pyStrip seg) '/' with
        | [o, r, i] => acc ++ [(Json.str o, Json.str r, Json.str i)]
        | _ => acc
      else acc)
      = fun acc seg => acc ++ (seg_triple seg).toList := by
    funext acc seg
    by_cases hc : pyContains seg '/' = true
    · rw [if_pos hc]
      unfold seg_triple
      rcases hl : pySplit (pyStrip seg) '/' with - | ⟨o, - | ⟨r, - | ⟨i, - | ⟨x, xs⟩⟩⟩⟩
      all_goals simp
    · rw [if_neg (by simpa using hc),
        seg_triple_eq_none seg (by simpa using hc)]
      simp
  rw [hbody, foldl_toList_filterMap]
  simp

theorem parse_json_list_eq_filterMap (items : List Json) :
    parse_json_list items = items.filterMap entry_triple := by
  unfold parse_json_list
  have hbody : (fun (acc : List (Json × Json × Json)) r =>
      match r with
      | Json.obj fields =>
          match jlookup fields "owner", jlookup fields "repo", jlookup fields "icon" with
          | some o, some rp, some ic => acc ++ [(o, rp, ic)]
          | _, _, _ => acc
      | _ => acc)
      = fun acc r => acc ++ (entry_triple r).toList := by
    funext acc r
    cases r with
    | obj fields =>
        unfold entry_triple
        cases h1 : jlookup fields "owner" with
        | none => simp [h1]
        | some o =>
            cases h2 : jlookup fields "repo" with
            | none => simp [h1, h2]
            | some rp =>
                cases h3 : jlookup fields "icon" with
                | none => simp [h1, h2, h3]
                | some ic => simp [h1, h2, h3]
    | null => simp [entry_triple]
    | bool b => simp [entry_triple]
    | num n => simp [entry_triple]
    | str s => simp [entry_triple]
    | arr its => simp [entry_triple]
  rw [hbody, foldl_toList_filterMap]
  simp

/-! ### Claim C3 -/

/-- C3 is false as stated: on the input `"a/b/c"` (seven characters, with
the double quotes — a valid JSON string document), `_parse_repos` takes
the `else` branch at github_manager.py lines 53-55 and returns `[]`
directly; it does not fall through to delimiter parsing, which on this
input would have produced a non-empty result. -/
theorem c3_counterexample :
    parse_repos_from (some (Json.str "a/b/c")) "\"a/b/c\"" = []
    ∧ parse_delimiter (pyStrip "\"a/b/c\"")
        = [(Json.str "\"a", Json.str "b", Json.str "c\"")]
    ∧ parse_repos_from (some (Json.str "a/b/c")) "\"a/b/c\""
        ≠ parse_delimiter (pyStrip "\"a/b/c\"") := by
  refine ⟨rfl, rfl, fun h => ?_⟩
  have h2 : ([] : List (Json × Json × Json))
      = [(Json.str "\"a", Json.str "b", Json.str "c\"")] := h
  exact List.noConfusion h2

/-- C3 amended: when the configuration string parses as JSON but the
decoded value is not a list, the parser returns an empty result directly
(lines 53-55) without attempting delimiter parsing; the delimiter path is
reached only when JSON parsing raises a decode error. -/
theorem c3_non_list_returns_empty (repos_str : String) (j : Json) :
    ((∀ items, j ≠ Json.arr items) → parse_repos_from (some j) repos_str = [])
    ∧ parse_repos_from none repos_str = parse_delimiter (pyStrip repos_str) := by
  constructor
  · intro h
    cases j with
    | arr items => exact absurd rfl (h items)
    | null => rfl
    | bool b => rfl
    | num n => rfl
    | str s => rfl
    | obj fields => rfl
  · rfl

/-- Witness for C3 (amended) at a concrete input: the JSON document `5`
decodes to a number, and the parser returns `[]` directly. -/
theorem c3_non_list_returns_empty_witness :
    parse_repos_from (some (Json.num 5)) "5" = [] :=
  (c3_non_list_returns_empty "5" (Json.num 5)).1
    (fun _ h => Json.noConfusion h)

/-! ### Claim C8 -/

/-- C8: in the delimiter path every comma-separated segment that does not
strip-split on `/` into exactly three parts is skipped and parsing
continues (the result is the in-order `filterMap` of the per-segment
extractor over the split), and in the JSON path entries that are not
objects or lack one of the keys `owner`, `repo`, `icon` are likewise
skipped without aborting the parse. -/
theorem c8_malformed_entries_skipped (s : String) (items : List Json) :
    parse_delimiter s = (pySplit s ',').filterMap seg_triple
    ∧ parse_json_list items = items.filterMap entry_triple :=
  ⟨parse_delimiter_eq_filterMap s, parse_json_list_eq_filterMap items⟩

/-- Witness for C8 at concrete inputs: the malformed segment `bad` (and a
two-part segment `e/f`) are skipped while well-formed segments survive in
input order; in the JSON path a non-object entry and an entry missing
`icon` are skipped. -/
theorem c8_malformed_entries_skipped_witness :
    parse_delimiter "a/b/x,bad,c/d/y,e/f"
      = [(Json.str "a", Json.str "b", Json.str "x"),
         (Json.str "c", Json.str "d", Json.str "y")]
    ∧ parse_json_list
        [Json.obj [("owner", Json.str "a"), ("repo", Json.str "b"), ("icon", Json.str "x")],
         Json.num 3,
         Json.obj [("owner", Json.str "c"), ("repo", Json.str "d")]]
      = [(Json.str "a", Json.str "b", Json.str "x")] := by
  have h := c8_malformed_entries_skipped "a/b/x,bad,c/d/y,e/f"
    [Json.obj [("owner", Json.str "a"), ("repo", Json.str "b"), ("icon", Json.str "x")],
     Json.num 3,
     Json.obj [("owner", Json.str "c"), ("repo", Json.str "d")]]
  exact ⟨h.1.trans rfl, h.2.trans rfl⟩

/-! ### Pull-request data model

Only the fields the source reads are modelled. `requested_reviewers` and
`labels` model `pr.get('requested_reviewers', [])` and
`pr.get('labels', [])`: an absent field is the empty list. -/

/-- An element of a pull request's `requested_reviewers`; the source reads
only `reviewer['login']`. -/
structure Reviewer where
  login : String
deriving DecidableEq, Repr

/-- An element of a pull request's `labels`; the source reads only
`label['name']`. -/
structure Label where
  name : String
deriving DecidableEq, Repr

/-- A pull request record from the host API. -/
structure PR where
  number : Nat
  title : String
  html_url : String
  requested_reviewers : List Reviewer
  labels : List Label
deriving DecidableEq, Repr

/-- One element of `all_prs` in `main` (main.py line 61): the tuple
`(owner, repo, pr, icon)`. -/
structure PrEntry where
  owner : String
  repo : String
  pr : PR
  icon : String
deriving DecidableEq, Repr

/-! ### Orchestration (`main`, main.py lines 53-87)

The per-repository loop body is wrapped in `try/except`: a raised
exception is logged and the loop continues with the next repository.
`github.get_pull_requests` is modelled as a function from (owner, repo)
to `Except` — an `.error` is a `RequestException` escaping
`_make_request` after exhausting its retries. If the fetch succeeds, all
pull requests are appended to `all_prs` before the logging loop runs, so
a later exception inside the same iteration (e.g. from
`get_reviewer_status`) cannot remove them; appending itself cannot fail,
so the accumulated list is exactly the fold below. -/

/-- The accumulation of `all_prs` over the repository loop. -/
def gather_prs (fetch : String → String → Except ReqError (List PR))
    (repos : List (String × String × String)) : List PrEntry :=
  repos.foldl
    (fun acc r =>
      match fetch r.1 r.2.1 with
      | .ok pulls => acc ++ pulls.map (fun p => ⟨r.1, r.2.1, p, r.2.2⟩)
      | .error _ => acc)
    []

/-- `GithubManager.get_pull_requests` composed with the retry client: the
response body of a successful `_make_request`, or the propagated error. -/
def get_pull_requests_via
    (outcome : String → String → Nat → AttemptOutcome (List PR))
    (owner repo : String) : Except ReqError (List PR) :=
  match make_request (outcome owner repo) with
  | some (.ok r, _, _) => .ok r.2
  | some (.error e, _, _) => .error e
  | none => .error (.transport "loop fell through")

theorem foldl_append_flatMap {α β : Type} (f : α → List β) :
    ∀ (l : List α) (acc : List β),
      l.foldl (fun a x => a ++ f x) acc = acc ++ l.flatMap f := by
  intro l
  induction l with
  | nil => intro acc; simp
  | cons x xs ih =>
      intro acc
      simp only [List.foldl_cons]
      rw [ih]
      simp

theorem gather_prs_eq (fetch : String → String → Except ReqError (List PR))
    (repos : List (String × String × String)) :
    gather_prs fetch repos
      = repos.flatMap (fun r =>
          match fetch r.1 r.2.1 with
          | .ok pulls => pulls.map (fun p => (⟨r.1, r.2.1, p, r.2.2⟩ : PrEntry))
          | .error _ => []) := by
  unfold gather_prs
  have hbody : (fun (acc : List PrEntry) (r : String × String × String) =>
      match fetch r.1 r.2.1 with
      | .ok pulls => acc ++ pulls.map (fun p => (⟨r.1, r.2.1, p, r.2.2⟩ : PrEntry))
      | .error _ => acc)
      = fun acc r => acc ++
          (match fetch r.1 r.2.1 with
           | .ok pulls => pulls.map (fun p => (⟨r.1, r.2.1, p, r.2.2⟩ : PrEntry))
           | .error _ => []) := by
    funext acc r
    cases fetch r.1 r.2.1 with
    | ok pulls => rfl
    | error e => simp
  rw [hbody, foldl_append_flatMap]
  simp

/-! ### Claim C4 -/

/-- C4: if the pull-request fetch for a repository fails (which is what
happens when `_make_request` exhausts its retries, third conjunct), no
pull request tagged with that repository appears in the accumulated
report, the loop itself never aborts (the accumulation is total), and
every pull request of a repository whose fetch succeeded does appear. -/
theorem c4_failed_repo_isolated
    (fetch : String → String → Except ReqError (List PR))
    (repos : List (String × String × String)) (owner0 repo0 : String)
    (e : ReqError) (hfail : fetch owner0 repo0 = .error e) :
    (∀ pe ∈ gather_prs fetch repos, ¬ (pe.owner = owner0 ∧ pe.repo = repo0))
    ∧ (∀ r ∈ repos, ∀ pulls, fetch r.1 r.2.1 = Except.ok pulls →
        ∀ p ∈ pulls, (⟨r.1, r.2.1, p, r.2.2⟩ : PrEntry) ∈ gather_prs fetch repos)
    ∧ (∀ (outcome : String → String → Nat → AttemptOutcome (List PR))
        (ow rp : String) (e0 e1 e2 : ReqError),
        tryAttempt (outcome ow rp 0) = .error e0 →
        tryAttempt (outcome ow rp 1) = .error e1 →
        tryAttempt (outcome ow rp 2) = .error e2 →
        get_pull_requests_via outcome ow rp = Except.error e2) := by
  refine ⟨?_, ?_, ?_⟩
  · intro pe hpe ⟨how, hrep⟩
    rw [gather_prs_eq] at hpe
    obtain ⟨r, hr, hmem⟩ := List.mem_flatMap.mp hpe
    cases hok : fetch r.1 r.2.1 with
    | error err => rw [hok] at hmem; simp at hmem
    | ok pulls =>
        rw [hok] at hmem
        obtain ⟨p, hp, hpe'⟩ := List.mem_map.mp hmem
        have h1 : r.1 = owner0 := by rw [← hpe'] at how; exact how
        have h2 : r.2.1 = repo0 := by rw [← hpe'] at hrep; exact hrep
        rw [h1, h2, hfail] at hok
        exact Except.noConfusion hok
  · intro r hr pulls hok p hp
    rw [gather_prs_eq]
    refine List.mem_flatMap.mpr ⟨r, hr, ?_⟩
    rw [hok]
    exact List.mem_map.mpr ⟨p, hp, rfl⟩
  · intro outcome ow rp e0 e1 e2 h0 h1 h2
    simp [get_pull_requests_via, make_request_eq, h0, h1, h2]

/-- Witness for C4 at a concrete input: repository `bad/r2` fails, its
entry is absent, while `good/r1` succeeds and its pull request appears. -/
theorem c4_failed_repo_isolated_witness :
    ((⟨"good", "r1", ⟨1, "t", "u", [], []⟩, "i1"⟩ : PrEntry)
      ∈ gather_prs
          (fun ow _ => if ow = "bad" then Except.error (ReqError.transport "x")
            else Except.ok [⟨1, "t", "u", [], []⟩])
          [("good", "r1", "i1"), ("bad", "r2", "i2")])
    ∧ ¬ (("good" : String) = "bad" ∧ ("r1" : String) = "r2") := by
  have h := c4_failed_repo_isolated
    (fun ow _ => if ow = "bad" then Except.error (ReqError.transport "x")
      else Except.ok [⟨1, "t", "u", [], []⟩])
    [("good", "r1", "i1"), ("bad", "r2", "i2")] "bad" "r2"
    (ReqError.transport "x") rfl
  refine ⟨?_, by simp⟩
  exact h.2.1 ("good", "r1", "i1") (by simp) [⟨1, "t", "u", [], []⟩] rfl
    ⟨1, "t", "u", [], []⟩ (by simp)

/-! ### Report rendering (`slack_notifier.py`) -/

/-- `get_review_status_emoji` (slack_notifier.py lines 7-16):
`status_map.get(state, ':white_circle:')`. -/
def get_review_status_emoji (state : String) : String :=
  match state with
  | "APPROVED" => ":white_check_mark:"
  | "CHANGES_REQUESTED" => ":x:"
  | "COMMENTED" => ":speech_balloon:"
  | "PENDING" => ":hourglass:"
  | "DISMISSED" => ":no_entry:"
  | _ => ":white_circle:"

/-- The `requested_names` set of `_format_reviewers` (line 35), as the
list of requested logins. -/
def requested_names (requested : List Reviewer) : List String :=
  requested.map (fun r => r.login)

/-- The `all_reviewers` set of `_format_reviewers` (lines 29-32): the
union of the requested logins and the keys of `reviewer_status` (modelled
as an association list with distinct keys). As a Python `set` it has no
duplicates and no intrinsic order; `dedup` fixes a representative —
`sorted` below makes the order canonical since all elements are
distinct and the sort key is injective on them. -/
def all_reviewers (requested : List Reviewer)
    (status : List (String × ReviewEntry)) : List String :=
  (requested.map (fun r => r.login) ++ status.map (fun p => p.1)).dedup

/-- The first component of the sort key
`lambda x: (0 if x in requested_names else 1, x)` (line 38). -/
def reviewer_rank (reqNames : List String) (x : String) : Nat :=
  if x ∈ reqNames then 0 else 1

/-- The order induced by the composite sort key of line 38 (lexicographic
on (rank, name)). -/
def reviewer_key_le (reqNames : List String) (x y : String) : Prop :=
  reviewer_rank reqNames x < reviewer_rank reqNames y
  ∨ (reviewer_rank reqNames x = reviewer_rank reqNames y ∧ x ≤ y)

instance reviewer_key_le_decidable (reqNames : List String) :
    DecidableRel (reviewer_key_le reqNames) := fun x y =>
  decidable_of_iff
    (reviewer_rank reqNames x < reviewer_rank reqNames y
      ∨ (reviewer_rank reqNames x = reviewer_rank reqNames y ∧ x ≤ y))
    Iff.rfl

/-- `sorted_reviewers` of `_format_reviewers` (lines 36-39): Python's
`sorted` on a set of distinct names with an injective key is fully
determined by the key order, so any sort realizes it. -/
def sorted_reviewers (requested : List Reviewer)
    (status : List (String × ReviewEntry)) : List String :=
  (all_reviewers requested status).insertionSort
    (reviewer_key_le (requested_names requested))

/-- `reviewer_status.get(reviewer_name, {}).get('state', 'PENDING')`
(line 43). -/
def status_state (status : List (String × ReviewEntry)) (name : String) : String :=
  match status.lookup name with
  | some entry => entry.state
  | none => "PENDING"

/-- The `reviewer_texts` list of `_format_reviewers` (lines 42-45):
one `f"• {reviewer_name} {emoji}"` line per sorted reviewer. -/
def reviewer_texts (requested : List Reviewer)
    (status : List (String × ReviewEntry)) : List String :=
  (sorted_reviewers requested status).map
    (fun name => "• " ++ name ++ " "
      ++ get_review_status_emoji (status_state status name))

/-- `SlackNotifier._format_reviewers` (lines 24-47):
`'\n'.join(reviewer_texts) if reviewer_texts else 'No reviewers assigned'`. -/
def format_reviewers (requested : List Reviewer)
    (status : List (String × ReviewEntry)) : String :=
  if reviewer_texts requested status = [] then "No reviewers assigned"
  else String.intercalate "\n" (reviewer_texts requested status)

theorem reviewer_key_le_total (reqNames : List String) :
    ∀ x y, reviewer_key_le reqNames x y ∨ reviewer_key_le reqNames y x := by
  intro x y
  rcases Nat.lt_trichotomy (reviewer_rank reqNames x) (reviewer_rank reqNames y)
    with h | h | h
  · exact Or.inl (Or.inl h)
  · rcases le_total x y with hs | hs
    · exact Or.inl (Or.inr ⟨h, hs⟩)
    · exact Or.inr (Or.inr ⟨h.symm, hs⟩)
  · exact Or.inr (Or.inl h)

theorem reviewer_key_le_trans (reqNames : List String) :
    ∀ x y z, reviewer_key_le reqNames x y → reviewer_key_le reqNames y z →
      reviewer_key_le reqNames x z := by
  intro x y z hxy hyz
  rcases hxy with h1 | ⟨h1, hs1⟩
  · rcases hyz with h2 | ⟨h2, _⟩
    · exact Or.inl (h1.trans h2)
    · exact Or.inl (h2 ▸ h1)
  · rcases hyz with h2 | ⟨h2, hs2⟩
    · exact Or.inl (h1 ▸ h2)
    · exact Or.inr ⟨h1.trans h2, le_trans hs1 hs2⟩

/-! ### Claim C9 -/

/-- C9: the reviewer list contains exactly one line per login in the union
of requested reviewers and reviewers with a recorded review (`Nodup` plus
the membership equivalence); every requested login precedes every
non-requested one and each group is sorted alphabetically (the `Pairwise`
clause, which also puts a login present in both sets in the requested
group since ranking is by requested-membership); a login with no recorded
review renders with the PENDING hourglass emoji; and an empty union
renders exactly `"No reviewers assigned"`. -/
theorem c9_reviewer_list_order (requested : List Reviewer)
    (status : List (String × ReviewEntry)) :
    (sorted_reviewers requested status).Nodup
    ∧ (∀ x, x ∈ sorted_reviewers requested status ↔
        x ∈ requested_names requested ∨ x ∈ status.map (fun p => p.1))
    ∧ List.Pairwise
        (fun x y => (x ∈ requested_names requested ∧ y ∉ requested_names requested)
          ∨ ((x ∈ requested_names requested ↔ y ∈ requested_names requested) ∧ x ≤ y))
        (sorted_reviewers requested status)
    ∧ (∀ x ∈ sorted_reviewers requested status, status.lookup x = none →
        ("• " ++ x ++ " " ++ ":hourglass:") ∈ reviewer_texts requested status)
    ∧ format_reviewers [] [] = "No reviewers assigned" := by
  have hperm : List.Perm (sorted_reviewers requested status)
      (all_reviewers requested status) :=
    List.perm_insertionSort _ _
  refine ⟨?_, ?_, ?_, ?_, rfl⟩
  · exact hperm.nodup_iff.mpr (List.nodup_dedup _)
  · intro x
    rw [hperm.mem_iff]
    simp [all_reviewers, requested_names]
  · have hsorted : List.Sorted (reviewer_key_le (requested_names requested))
        (sorted_reviewers requested status) := by
      haveI : IsTotal String (reviewer_key_le (requested_names requested)) :=
        ⟨reviewer_key_le_total _⟩
      haveI : IsTrans String (reviewer_key_le (requested_names requested)) :=
        ⟨reviewer_key_le_trans _⟩
      exact List.sorted_insertionSort _ _
    refine hsorted.imp ?_
    intro a b h
    rcases h with h | ⟨h, hs⟩
    · by_cases ha : a ∈ requested_names requested
      · by_cases hb : b ∈ requested_names requested
        · exfalso
          simp [reviewer_rank, ha, hb] at h
        · exact Or.inl ⟨ha, hb⟩
      · exfalso
        by_cases hb : b ∈ requested_names requested
        · simp [reviewer_rank, ha, hb] at h
        · simp [reviewer_rank, ha, hb] at h
    · refine Or.inr ⟨?_, hs⟩
      by_cases ha : a ∈ requested_names requested
      · by_cases hb : b ∈ requested_names requested
        · exact iff_of_true ha hb
        · exfalso; simp [reviewer_rank, ha, hb] at h
      · by_cases hb : b ∈ requested_names requested
        · exfalso; simp [reviewer_rank, ha, hb] at h
        · exact iff_of_false ha hb
  · intro x hx hlk
    unfold reviewer_texts
    refine List.mem_map.mpr ⟨x, hx, ?_⟩
    have hstate : status_state status x = "PENDING" := by
      simp [status_state, hlk]
    rw [hstate]
    rfl

/-- Witness for C9 at a concrete input: requested reviewers `dave` and
`bob` have no recorded review; `bob` is in the sorted list and renders
with the hourglass emoji. -/
theorem c9_reviewer_list_order_witness :
    ("• " ++ "bob" ++ " " ++ ":hourglass:")
      ∈ reviewer_texts [⟨"dave"⟩, ⟨"bob"⟩] [("alice", ⟨"APPROVED", "1"⟩)] :=
  (c9_reviewer_list_order [⟨"dave"⟩, ⟨"bob"⟩]
      [("alice", ⟨"APPROVED", "1"⟩)]).2.2.2.1 "bob"
    (((c9_reviewer_list_order [⟨"dave"⟩, ⟨"bob"⟩]
        [("alice", ⟨"APPROVED", "1"⟩)]).2.1 "bob").mpr
      (Or.inl (by decide)))
    rfl

/-! ### Message blocks and `send_pr_info` (slack_notifier.py lines 49-178)

A Slack block is reduced to its kind and its (mrkdwn or plain) text; the
constant `{"type": "mrkdwn"/"plain_text"}` wrappers are not load-bearing. -/

inductive Block where
  | headerBlock (text : String)
  | sectionBlock (text : String)
  | dividerBlock
deriving DecidableEq, Repr

/-- The `message` dict posted to the webhook. `username`/`icon_emoji` are
absent (`none`) in the empty-report message. -/
structure SlackMessage where
  username : Option String
  icon_emoji : Option String
  blocks : List Block
deriving DecidableEq, Repr

/-- The linked-title line `*<{pr_url}|PR #{pr_number}: {pr_title}>*`
(lines 64-66), the whole text of the compact block. -/
def compact_text (pr : PR) : String :=
  "*<" ++ pr.html_url ++ "|PR #" ++ toString pr.number ++ ": " ++ pr.title ++ ">*"

/-- `', '.join(labels) if labels else 'No labels'` (line 79). -/
def labels_text (labels : List Label) : String :=
  if labels = [] then "No labels"
  else String.intercalate ", " (labels.map (fun l => l.name))

/-- The expanded block text (lines 75-80): linked title, quoted reviewer
list (newlines re-quoted with `"> "`), and the labels line. -/
def expanded_text (pr : PR) (reviewers_text : String) : String :=
  compact_text pr ++ "\n> *Reviewers:*\n> "
    ++ (reviewers_text.replace "\n" "\n> ")
    ++ "\n> *Labels:* " ++ labels_text pr.labels

/-- `SlackNotifier._create_pr_block` (lines 49-88): compact one-line block
when `approval_count >= 2`, expanded block otherwise. `approval` and
`statusOf` abstract the two components of
`github.get_reviewer_status(owner, repo, pr_number)`. -/
def create_pr_block (approval : String → String → Nat → Nat)
    (statusOf : String → String → Nat → List (String × ReviewEntry))
    (owner repo : String) (pr : PR) : Block :=
  if approval owner repo pr.number ≥ 2 then
    Block.sectionBlock (compact_text pr)
  else
    Block.sectionBlock
      (expanded_text pr
        (format_reviewers pr.requested_reviewers (statusOf owner repo pr.number)))

/-- The ready/pending split of `send_pr_info` (lines 139-146): one pass
appending to `ready_prs` when `approval_count >= 2`, else to
`pending_prs`. -/
def split_ready (approval : String → String → Nat → Nat)
    (repo_prs : List (String × String × PR)) :
    List (String × String × PR) × List (String × String × PR) :=
  repo_prs.foldl
    (fun acc t =>
      if approval t.1 t.2.1 t.2.2.number ≥ 2 then (acc.1 ++ [t], acc.2)
      else (acc.1, acc.2 ++ [t]))
    ([], [])

theorem expanded_text_ne_compact (pr : PR) (rt : String) :
    expanded_text pr rt ≠ compact_text pr := by
  intro h
  have hlen := congrArg String.length h
  simp only [expanded_text, String.length_append] at hlen
  have h1 : ("\n> *Reviewers:*\n> ").length = 18 := rfl
  have h2 : ("\n> *Labels:* ").length = 13 := rfl
  rw [h1, h2] at hlen
  omega

theorem split_ready_eq (approval : String → String → Nat → Nat)
    (repo_prs : List (String × String × PR)) :
    split_ready approval repo_prs
      = (repo_prs.filter (fun t => decide (2 ≤ approval t.1 t.2.1 t.2.2.number)),
         repo_prs.filter (fun t => !(decide (2 ≤ approval t.1 t.2.1 t.2.2.number)))) := by
  unfold split_ready
  suffices h : ∀ (l : List (String × String × PR)) (a b : List (String × String × PR)),
      l.foldl
        (fun acc t =>
          if approval t.1 t.2.1 t.2.2.number ≥ 2 then (acc.1 ++ [t], acc.2)
          else (acc.1, acc.2 ++ [t]))
        (a, b)
      = (a ++ l.filter (fun t => decide (2 ≤ approval t.1 t.2.1 t.2.2.number)),
         b ++ l.filter (fun t => !(decide (2 ≤ approval t.1 t.2.1 t.2.2.number)))) by
    simpa using h repo_prs [] []
  intro l
  induction l with
  | nil => intro a b; simp
  | cons t ts ih =>
      intro a b
      by_cases hc : 2 ≤ approval t.1 t.2.1 t.2.2.number
      · simp only [List.foldl_cons, List.filter_cons]
        rw [if_pos hc, ih]
        simp [hc]
      · simp only [List.foldl_cons, List.filter_cons]
        rw [if_neg hc, ih]
        simp [hc]

/-! ### Claim C5 -/

/-- C5: a pull request lands in the ready list iff its approval count is
at least 2 (the pending list is the complement), and the same threshold
decides whether its block is the compact one-line form: the produced
block equals the compact block exactly when the count is at least 2. -/
theorem c5_ready_threshold (approval : String → String → Nat → Nat)
    (statusOf : String → String → Nat → List (String × ReviewEntry))
    (repo_prs : List (String × String × PR)) :
    split_ready approval repo_prs
      = (repo_prs.filter (fun t => decide (2 ≤ approval t.1 t.2.1 t.2.2.number)),
         repo_prs.filter (fun t => !(decide (2 ≤ approval t.1 t.2.1 t.2.2.number))))
    ∧ ∀ owner repo pr,
        (create_pr_block approval statusOf owner repo pr
            = Block.sectionBlock (compact_text pr)
          ↔ 2 ≤ approval owner repo pr.number) := by
  refine ⟨split_ready_eq approval repo_prs, ?_⟩
  intro owner repo pr
  unfold create_pr_block
  by_cases h : approval owner repo pr.number ≥ 2
  · rw [if_pos h]
    exact iff_of_true rfl h
  · rw [if_neg h]
    constructor
    · intro heq
      exact absurd (Block.sectionBlock.inj heq) (expanded_text_ne_compact pr _)
    · intro h2
      exact absurd h2 h

/-- Witness for C5 at concrete inputs: a count of exactly 2 yields the
compact block, and with counts taken from the PR numbers the PR with
count 2 lands in the ready list while the one with count 1 lands in the
pending list. -/
theorem c5_ready_threshold_witness :
    create_pr_block (fun _ _ _ => 2) (fun _ _ _ => []) "o" "r" ⟨1, "t", "u", [], []⟩
      = Block.sectionBlock (compact_text ⟨1, "t", "u", [], []⟩)
    ∧ split_ready (fun _ _ n => n)
        [("o", "r", ⟨2, "t2", "u2", [], []⟩), ("o", "r", ⟨1, "t1", "u1", [], []⟩)]
      = ([("o", "r", ⟨2, "t2", "u2", [], []⟩)], [("o", "r", ⟨1, "t1", "u1", [], []⟩)]) := by
  constructor
  · exact ((c5_ready_threshold (fun _ _ _ => 2) (fun _ _ _ => []) []).2
      "o" "r" ⟨1, "t", "u", [], []⟩).mpr (by omega)
  · exact (c5_ready_threshold (fun _ _ n => n) (fun _ _ _ => [])
      [("o", "r", ⟨2, "t2", "u2", [], []⟩), ("o", "r", ⟨1, "t1", "u1", [], []⟩)]).1.trans
      (by decide)

/-! ### Full message assembly (`send_pr_info`, lines 90-178) and the
orchestrator's notify guard (`main`, main.py lines 89-96) -/

/-- The `f"{owner}/{repo}"` grouping key (line 122). -/
def repo_key (e : PrEntry) : String := e.owner ++ "/" ++ e.repo

/-- The distinct grouping keys of the `repos` dict (lines 120-125); the
dict is rebuilt in sorted key order below, so only the key set matters. -/
def repo_keys (prs : List PrEntry) : List String :=
  (prs.map repo_key).dedup

/-- The icon stored for a key: the dict entry is created at the key's
first occurrence (`if key not in repos: repos[key] = {"icon": icon, ...}`),
so it carries the first matching entry's icon. -/
def icon_for (prs : List PrEntry) (key : String) : String :=
  match prs.find? (fun e => repo_key e == key) with
  | some e => e.icon
  | none => ""

/-- The `(owner, repo, pr)` list accumulated for a key, in input order
(line 125). -/
def prs_for (prs : List PrEntry) (key : String) : List (String × String × PR) :=
  (prs.filter (fun e => repo_key e == key)).map (fun e => (e.owner, e.repo, e.pr))

/-- The block run for one readiness group (lines 152-159 and 165-172):
the rendered PR blocks, or a literal `_None_` placeholder if the group is
empty. -/
def pr_blocks (approval : String → String → Nat → Nat)
    (statusOf : String → String → Nat → List (String × ReviewEntry))
    (l : List (String × String × PR)) : List Block :=
  if l = [] then [Block.sectionBlock "_None_"]
  else l.map (fun t => create_pr_block approval statusOf t.1 t.2.1 t.2.2)

/-- The blocks appended for one repository (lines 128-173): repository
heading, ready heading and group, pending heading and group, divider. -/
def repo_section (approval : String → String → Nat → Nat)
    (statusOf : String → String → Nat → List (String × ReviewEntry))
    (prs : List PrEntry) (key : String) : List Block :=
  [Block.sectionBlock (icon_for prs key ++ " *Repository: " ++ key ++ "*"),
   Block.sectionBlock "*✅ Ready for Merge*"]
  ++ pr_blocks approval statusOf (split_ready approval (prs_for prs key)).1
  ++ [Block.sectionBlock "*🕐 Pending Reviews*"]
  ++ pr_blocks approval statusOf (split_ready approval (prs_for prs key)).2
  ++ [Block.dividerBlock]

/-- The `message` built by `send_pr_info` (lines 92-178): for an empty PR
list a single no-PRs section (lines 92-103, no username/icon); otherwise
header and divider followed by the per-repository sections in ascending
key order (`sorted(repos.items())`, line 128). `today` abstracts
`datetime.now().strftime("%Y-%m-%d")`. -/
def build_message (today : String) (approval : String → String → Nat → Nat)
    (statusOf : String → String → Nat → List (String × ReviewEntry))
    (prs : List PrEntry) : SlackMessage :=
  if prs = [] then
    ⟨none, none, [Block.sectionBlock "*No open PRs found in any repository*"]⟩
  else
    ⟨some "PR help help", some ":robot_face:",
      [Block.headerBlock ("📊 PR Status Report (" ++ today ++ ") - "
          ++ toString prs.length ++ " open PRs"),
       Block.dividerBlock]
      ++ ((repo_keys prs).insertionSort (fun a b : String => a ≤ b)).flatMap
          (repo_section approval statusOf prs)⟩

/-- The notify step of `main` (main.py lines 89-96): `send_pr_info` — and
with it the webhook POST — is invoked only when `all_prs` is non-empty;
an empty accumulation logs and skips the notifier entirely (`none`). -/
def main_send (today : String) (approval : String → String → Nat → Nat)
    (statusOf : String → String → Nat → List (String × ReviewEntry))
    (all_prs : List PrEntry) : Option SlackMessage :=
  if all_prs = [] then none
  else some (build_message today approval statusOf all_prs)

/-! ### Claim C7 -/

/-- C7: when the accumulated pull-request set is empty, the rendered
report is a single block stating that no open PRs were found, and the
notifier is never invoked (`main` skips `send_pr_info`, so no webhook
POST happens). -/
theorem c7_empty_run_skips_notify (today : String)
    (approval : String → String → Nat → Nat)
    (statusOf : String → String → Nat → List (String × ReviewEntry))
    (prs : List PrEntry) :
    (prs = [] → main_send today approval statusOf prs = none)
    ∧ (build_message today approval statusOf []).blocks
        = [Block.sectionBlock "*No open PRs found in any repository*"]
    ∧ ((build_message today approval statusOf []).blocks).length = 1 := by
  refine ⟨fun h => ?_, rfl, rfl⟩
  rw [h]
  rfl

/-- Witness for C7 at a concrete input: an empty accumulation skips the
notifier. -/
theorem c7_empty_run_skips_notify_witness :
    main_send "2024-01-01" (fun _ _ _ => 0) (fun _ _ _ => []) [] = none :=
  (c7_empty_run_skips_notify "2024-01-01" (fun _ _ _ => 0) (fun _ _ _ => []) []).1 rfl
